import Mathlib

/-!
Shallow embedding of the shemail IMAP-orchestration core (Go) in Lean 4,
with theorems settling the specification claims about it.

The embedding covers:
* search-criteria composition (`BuildSearchCriteria`, `BuildORSearchCriteria`
  from `imaputils/criteria.go`),
* the move / delete / folder-creation operations
  (`MoveMessages`, `moveToGmailTrash`, `EnsureFolder` from
  `imaputils` `move.go` / unnamed part 003, `DeleteMessages`,
  `findTrashFolder`, `purgeMessages` from `delete.go`,
  `ListFolders` from `folder_list.go`),
* sender tallying (`CountMessagesBySender`, `parallelSort` from
  `imap/senders.go` and `FormatAddress` from unnamed part 002).

Protocol interaction is embedded by answering every command from a
`Server` oracle (the same role the mock clients play in the repository's
tests) and recording the issued commands in a trace of `Op` values.
Go's concurrent per-batch fan-out and the 4-worker tally pool are
linearised in input order; the claims settled below only concern
properties that are invariant under the scheduling (results, per-session
command order, and tally contents, which are mutex-serialised in the
source).  Go map iteration order (randomised at runtime) is fixed to the
textual order of the corresponding map literals.
-/

/-! ## Dates

Go `time.Time` values reaching the criteria builder are calendar dates
(parsed with layout "2006-01-02"); they are embedded as year/month/day
triples, and `AddDate(0, 0, 1)` as `addOneDay`. -/
structure GoDate where
  year : Nat
  month : Nat
  day : Nat
deriving DecidableEq, Repr

/-- Go `isLeap` rule used by `time.AddDate` normalisation. -/
def isLeapYear (y : Nat) : Bool :=
  y % 4 == 0 && (y % 100 != 0 || y % 400 == 0)

def daysInMonth (y m : Nat) : Nat :=
  if m == 2 then (if isLeapYear y then 29 else 28)
  else if m == 4 || m == 6 || m == 9 || m == 11 then 30
  else 31

/-- Embedding of `t.AddDate(0, 0, 1)` on a valid calendar date. -/
def addOneDay (d : GoDate) : GoDate :=
  if d.day < daysInMonth d.year d.month then ⟨d.year, d.month, d.day + 1⟩
  else if d.month < 12 then ⟨d.year, d.month + 1, 1⟩
  else ⟨d.year + 1, 1, 1⟩

/-! ## Search options and criteria

`SearchOptions` (unnamed part 005): every field is optional.
`imap.SearchCriteria` is embedded by `SearchCriteria`: the `Header` map
(whose only keys in this program are "To"/"From"/"Subject", each with a
single value) becomes three optional fields, the four date fields become
optional dates (Go's zero `time.Time` is `none`), and the `Or` list,
which the program only ever fills with a single pair, becomes an
optional pair of subtrees. -/
structure SearchOptions where
  toAddr : Option String := none
  fromAddr : Option String := none
  subject : Option String := none
  startDate : Option GoDate := none
  endDate : Option GoDate := none
  seen : Option Bool := none
  unseen : Option Bool := none
deriving DecidableEq, Repr

/-- The Go `imap.SeenFlag` constant. -/
def SeenFlag : String := "\\Seen"

structure SCFields where
  headerTo : Option String := none
  headerFrom : Option String := none
  headerSubject : Option String := none
  since : Option GoDate := none
  before : Option GoDate := none
  sentSince : Option GoDate := none
  sentBefore : Option GoDate := none
  withFlags : List String := []
  withoutFlags : List String := []
deriving DecidableEq, Repr

inductive SearchCriteria where
  | node (fields : SCFields) (orPair : Option (SearchCriteria × SearchCriteria))

def SearchCriteria.fields : SearchCriteria → SCFields
  | .node f _ => f

def SearchCriteria.orPair : SearchCriteria → Option (SearchCriteria × SearchCriteria)
  | .node _ o => o

/-- A criteria node with no fields set: Go `&imap.SearchCriteria{}`
(together with `initializeCriteria`, whose only difference in Go is an
allocated-but-empty `Header` map, indistinguishable here). -/
def emptyCriteria : SearchCriteria := .node {} none

/-- `addHeaderCriteria`: set each of the To/From/Subject header entries
that is present in the options. -/
def addHeaderCriteria (f : SCFields) (opts : SearchOptions) : SCFields :=
  { f with
    headerTo := opts.toAddr.elim f.headerTo some
    headerFrom := opts.fromAddr.elim f.headerFrom some
    headerSubject := opts.subject.elim f.headerSubject some }

/-- `addDateCriteria`: Since/SentSince from the start date, and
Before/SentBefore = end date + 1 day from the end date. -/
def addDateCriteria (f : SCFields) (opts : SearchOptions) : SCFields :=
  let f1 := match opts.startDate with
    | some s => { f with since := some s, sentSince := some s }
    | none => f
  match opts.endDate with
  | some e => { f1 with before := some (addOneDay e), sentBefore := some (addOneDay e) }
  | none => f1

/-- `addFlagCriteria`: Seen=true adds the Seen flag to WithFlags,
Unseen=true adds it to WithoutFlags. -/
def addFlagCriteria (f : SCFields) (opts : SearchOptions) : SCFields :=
  let f1 := if opts.seen = some true then { f with withFlags := [SeenFlag] } else f
  if opts.unseen = some true then { f1 with withoutFlags := [SeenFlag] } else f1

/-- `BuildSearchCriteria` (criteria.go): one node carrying all present
options (AND composition). -/
def BuildSearchCriteria (opts : SearchOptions) : SearchCriteria :=
  .node (addFlagCriteria (addDateCriteria (addHeaderCriteria {} opts) opts) opts) none

/-- `buildHeaderCriteria`: one single-header leaf per present header
option.  The Go code iterates a map literal; the textual order
To, From, Subject is used here. -/
def buildHeaderCriteria (opts : SearchOptions) : List SearchCriteria :=
  (opts.toAddr.elim [] fun v => [.node { headerTo := some v } none]) ++
  (opts.fromAddr.elim [] fun v => [.node { headerFrom := some v } none]) ++
  (opts.subject.elim [] fun v => [.node { headerSubject := some v } none])

/-- `buildDateRangeCriteria`: one combined leaf when both dates are
present, else one leaf per present bound. -/
def buildDateRangeCriteria (opts : SearchOptions) : List SearchCriteria :=
  match opts.startDate, opts.endDate with
  | some s, some e =>
      [.node { since := some s, before := some (addOneDay e),
               sentSince := some s, sentBefore := some (addOneDay e) } none]
  | some s, none => [.node { since := some s, sentSince := some s } none]
  | none, some e => [.node { before := some (addOneDay e), sentBefore := some (addOneDay e) } none]
  | none, none => []

/-- `buildFlagCriteria`: one leaf per true flag option. -/
def buildFlagCriteria (opts : SearchOptions) : List SearchCriteria :=
  (if opts.seen = some true then [.node { withFlags := [SeenFlag] } none] else []) ++
  (if opts.unseen = some true then [.node { withoutFlags := [SeenFlag] } none] else [])

/-- `buildIndividualCriteria`: the leaves, one per present option. -/
def buildIndividualCriteria (opts : SearchOptions) : List SearchCriteria :=
  buildHeaderCriteria opts ++ buildDateRangeCriteria opts ++ buildFlagCriteria opts

/-- `buildORChain`: right-associatively chain ≥2 criteria into nested
binary OR nodes. -/
def buildORChain : List SearchCriteria → SearchCriteria
  | [a, b] => .node {} (some (a, b))
  | a :: rest => .node {} (some (a, buildORChain rest))
  | [] => .node {} none

/-- `combineCriteriaWithOR`: empty list ⇒ empty criteria; singleton ⇒
the leaf itself, unwrapped; otherwise the OR chain. -/
def combineCriteriaWithOR (criteriaList : List SearchCriteria) : SearchCriteria :=
  match criteriaList with
  | [] => .node {} none
  | [c] => c
  | _ => buildORChain criteriaList

/-- `BuildORSearchCriteria` (criteria.go). -/
def BuildORSearchCriteria (opts : SearchOptions) : SearchCriteria :=
  combineCriteriaWithOR (buildIndividualCriteria opts)

/-! Helper notions for the OR-tree claims. -/

/-- The leaves of a criteria tree (a node without an `Or` entry is its
own single leaf). -/
def orLeaves : SearchCriteria → List SearchCriteria
  | .node f none => [.node f none]
  | .node _ (some (l, r)) => orLeaves l ++ orLeaves r

/-- Depth of the OR nesting. -/
def orDepth : SearchCriteria → Nat
  | .node _ none => 0
  | .node _ (some (l, r)) => 1 + max (orDepth l) (orDepth r)

/-- A tree is right-nested when the left child of every OR node is a
leaf. -/
def rightNested : SearchCriteria → Bool
  | .node _ none => true
  | .node _ (some (l, r)) => l.orPair.isNone && rightNested r

/-- Number of present fields in the options. -/
def presentFieldCount (opts : SearchOptions) : Nat :=
  opts.toAddr.elim 0 (fun _ => 1) + opts.fromAddr.elim 0 (fun _ => 1) +
  opts.subject.elim 0 (fun _ => 1) + opts.startDate.elim 0 (fun _ => 1) +
  opts.endDate.elim 0 (fun _ => 1) + opts.seen.elim 0 (fun _ => 1) +
  opts.unseen.elim 0 (fun _ => 1)

/-! ## Strings

Folder paths and server names are Go strings.  `strings.Split(s, "/")`
is embedded as `splitSlash` and `strings.Contains` as `strContains`,
both computing on the string's character list. -/
def splitOnChar (c : Char) : List Char → List (List Char)
  | [] => [[]]
  | x :: xs =>
    if x = c then [] :: splitOnChar c xs
    else
      match splitOnChar c xs with
      | [] => [[x]]
      | g :: gs => (x :: g) :: gs

/-- `strings.Split(s, "/")`. -/
def splitSlash (s : String) : List String :=
  (splitOnChar '/' s.data).map (fun l => String.mk l)

def leadRun : List Char → List Char → Bool
  | [], _ => true
  | _ :: _, [] => false
  | a :: as, b :: bs => a = b && leadRun as bs

def hasRun : List Char → List Char → Bool
  | sub, [] => sub.isEmpty
  | sub, c :: cs => leadRun sub (c :: cs) || hasRun sub cs

/-- `strings.Contains(s, sub)`. -/
def strContains (s sub : String) : Bool := hasRun sub.data s.data

/-! ## Accounts, messages, protocol sessions

`Account` is the configuration record of `imaputils`.  A `Msg` carries
the UID, the only message data the move/delete layer reads.  A `Server`
answers every protocol command (the role played by the mock
`IMAPClient`/`IMAPDialer` pairs in the repository's tests; dial+login is
collapsed into one `login` answer, and the answers are functions of the
command arguments only).  Every embedded operation returns its Go result
together with the list of protocol commands it issued, in order. -/
structure Account where
  name : String := ""
  user : String := ""
  password : String := ""
  server : String := ""
  port : Nat := 0
  tls : Bool := false
  purge : Bool := false
  isDefault : Bool := false

structure Msg where
  seqNum : Nat := 0
  uid : Nat := 0
deriving DecidableEq, Repr

inductive Op where
  | dialLoginOp
  | selectOp (folder : String) (readOnly : Bool)
  | listOp (ref pattern : String)
  | createOp (name : String)
  | uidMoveOp (uids : List Nat) (dest : String)
  | uidCopyOp (uids : List Nat) (dest : String)
  | uidStoreOp (uids : List Nat)
  | expungeOp
  | uidFetchOp (uids : List Nat)
  | logoutOp
deriving DecidableEq, Repr

structure Server where
  login : Except String Unit
  selectFolder : String → Except String Unit
  listPattern : String → Except String (List String)
  createFolder : String → Except String Unit
  uidMove : List Nat → String → Except String Unit
  uidCopy : List Nat → String → Except String Unit
  uidStoreDeleted : List Nat → Except String Unit
  expunge : Except String Unit
  uidFetchFound : Nat → Except String Bool

/-- `createSeqSet` (unnamed part 002): the UID sequence set of a message
list, embedded as the list of UIDs. -/
def createSeqSet (messages : List Msg) : List Nat :=
  messages.map Msg.uid

/-- `getImapClient` (imap.go): dial (with or without TLS) and login. -/
def getImapClient (srv : Server) : Except String Unit × List Op :=
  match srv.login with
  | .error e => (.error ("failed to connect to server: " ++ e), [.dialLoginOp])
  | .ok _ => (.ok (), [.dialLoginOp])

/-- `connectToMailbox` (imap.go): `getImapClient` then select the folder. -/
def connectToMailbox (srv : Server) (folder : String) (readOnly : Bool) :
    Except String Unit × List Op :=
  match getImapClient srv with
  | (.error e, t) => (.error ("failed to get IMAP client: " ++ e), t)
  | (.ok _, t) =>
    match srv.selectFolder folder with
    | .error e => (.error ("failed to select folder: " ++ e), t ++ [.selectOp folder readOnly])
    | .ok _ => (.ok (), t ++ [.selectOp folder readOnly])

/-- `ListFolders` (folder_list.go): connect, `List("", "*")`, logout. -/
def ListFolders (srv : Server) : Except String (List String) × List Op :=
  match getImapClient srv with
  | (.error e, t) => (.error ("failed to initialize imap client: " ++ e), t)
  | (.ok _, t) =>
    match srv.listPattern "*" with
    | .error e => (.error ("failed to list folders: " ++ e), t ++ [.listOp "" "*", .logoutOp])
    | .ok names => (.ok names, t ++ [.listOp "" "*", .logoutOp])

/-- `DeletedFolderNames` (delete.go). -/
def DeletedFolderNames : List String :=
  ["Trash", "[Gmail]/Trash", "Deleted Items", "Deleted Messages"]

/-- The scan inside `findTrashFolder`: outer loop over the listed
mailboxes, inner loop over `DeletedFolderNames`; the first listed
mailbox equal to any well-known name is returned, else the hard-coded
fallback. -/
def findFirstTrashMatch : List String → String
  | [] => "Deleted Items"
  | f :: rest => if DeletedFolderNames.contains f then f else findFirstTrashMatch rest

/-- `findTrashFolder` (delete.go). -/
def findTrashFolder (srv : Server) : Except String String × List Op :=
  match ListFolders srv with
  | (.error e, t) => (.error ("failed to list folders: " ++ e), t)
  | (.ok mailboxes, t) => (.ok (findFirstTrashMatch mailboxes), t)

/-- The per-segment walk of `EnsureFolder`: extend the current path by
one segment, list it, create it when missing, then continue. -/
def ensureSegments (srv : Server) : List String → String → Bool → Except String Unit × List Op
  | [], _, _ => (.ok (), [])
  | seg :: rest, current, isFirst =>
    let path := if isFirst then current ++ seg else current ++ "/" ++ seg
    match srv.listPattern path with
    | .error e => (.error e, [.listOp "" path])
    | .ok names =>
      if names.contains path then
        let r := ensureSegments srv rest path false
        (r.1, .listOp "" path :: r.2)
      else
        match srv.createFolder path with
        | .error e => (.error e, [.listOp "" path, .createOp path])
        | .ok _ =>
          let r := ensureSegments srv rest path false
          (r.1, .listOp "" path :: .createOp path :: r.2)

/-- `EnsureFolder` (unnamed part 003): check the full path first; when
absent, split on '/' and walk the prefixes parent-first. -/
def EnsureFolder (srv : Server) (folderName : String) : Except String Unit × List Op :=
  match getImapClient srv with
  | (.error e, t) => (.error ("failed to init imap client: " ++ e), t)
  | (.ok _, t) =>
    match srv.listPattern folderName with
    | .error e => (.error e, t ++ [.listOp "" folderName, .logoutOp])
    | .ok names =>
      if names.contains folderName then (.ok (), t ++ [.listOp "" folderName, .logoutOp])
      else
        let r := ensureSegments srv (splitSlash folderName) "" true
        (r.1, t ++ .listOp "" folderName :: r.2 ++ [.logoutOp])

/-- `moveToGmailTrash` (unnamed part 003): UID COPY to "[Gmail]/Trash",
then UID STORE +Deleted, then EXPUNGE; stop at the first failure, with
no compensating commands. -/
def moveToGmailTrash (srv : Server) (folder : String) (messages : List Msg) :
    Except String Unit × List Op :=
  match connectToMailbox srv folder false with
  | (.error e, t) => (.error ("failed to connect to mailbox: " ++ e), t)
  | (.ok _, t) =>
    let seqSet := createSeqSet messages
    match srv.uidCopy seqSet "[Gmail]/Trash" with
    | .error e => (.error ("failed to copy messages to trash: " ++ e),
        t ++ [.uidCopyOp seqSet "[Gmail]/Trash", .logoutOp])
    | .ok _ =>
      match srv.uidStoreDeleted seqSet with
      | .error e => (.error ("failed to flag messages as deleted: " ++ e),
          t ++ [.uidCopyOp seqSet "[Gmail]/Trash", .uidStoreOp seqSet, .logoutOp])
      | .ok _ =>
        match srv.expunge with
        | .error e => (.error ("failed to expunge messages: " ++ e),
            t ++ [.uidCopyOp seqSet "[Gmail]/Trash", .uidStoreOp seqSet, .expungeOp, .logoutOp])
        | .ok _ => (.ok (),
            t ++ [.uidCopyOp seqSet "[Gmail]/Trash", .uidStoreOp seqSet, .expungeOp, .logoutOp])

/-- The batch-partition loop of `MoveMessages` (`messages[i:end]` slices
of `batchSize`), with the list length as structural fuel. -/
def chunkGo (fuel n : Nat) (l : List Msg) : List (List Msg) :=
  match fuel, l with
  | _, [] => []
  | 0, l => [l]
  | f + 1, l => l.take n :: chunkGo f n (l.drop n)

def chunkBatches (n : Nat) (l : List Msg) : List (List Msg) :=
  chunkGo l.length n l

/-- The concurrent per-batch fan-out of `MoveMessages`, linearised in
batch order: every batch opens its own session and issues one UID MOVE;
all batches run to completion and the first error (in batch order) is
the one surfaced by `g.Wait()`. -/
def runBatches (srv : Server) (sourceFolder destFolder : String) :
    List (List Msg) → Except String Unit × List Op
  | [] => (.ok (), [])
  | batch :: rest =>
    let rb : Except String Unit × List Op :=
      match connectToMailbox srv sourceFolder false with
      | (.error e, t) => (.error ("failed to connect to server for batch: " ++ e), t)
      | (.ok _, t) =>
        let seqSet := createSeqSet batch
        match srv.uidMove seqSet destFolder with
        | .error e => (.error ("failed to move batch: " ++ e),
            t ++ [.uidMoveOp seqSet destFolder, .logoutOp])
        | .ok _ => (.ok (), t ++ [.uidMoveOp seqSet destFolder, .logoutOp])
    let rr := runBatches srv sourceFolder destFolder rest
    ((match rb.1 with | .error e => .error e | .ok _ => rr.1), rb.2 ++ rr.2)

/-- The verification loop of `MoveMessages`: one single-UID fetch per
original message; a fetch that succeeds and still yields the message
aborts with the verification error, while fetch errors are ignored. -/
def verifyLoop (srv : Server) : List Msg → Except String Unit × List Op
  | [] => (.ok (), [])
  | msg :: rest =>
    match srv.uidFetchFound msg.uid with
    | .ok true => (.error ("message UID " ++ toString msg.uid ++
        " still found in source folder after move"), [.uidFetchOp [msg.uid]])
    | _ =>
      let r := verifyLoop srv rest
      (r.1, .uidFetchOp [msg.uid] :: r.2)

/-- `MoveMessages` (unnamed part 003): Gmail-dialect special case, else
connect to the source, ensure the destination exists, move the batches
concurrently, then verify on a fresh session. -/
def MoveMessages (srv : Server) (account : Account) (messages : List Msg)
    (sourceFolder destFolder : String) (batchSize : Int) :
    Except String Unit × List Op :=
  if strContains account.server "gmail.com" && destFolder == "[Gmail]/Trash" then
    moveToGmailTrash srv sourceFolder messages
  else
    match connectToMailbox srv sourceFolder false with
    | (.error e, t) => (.error ("failed to connect to server: " ++ e), t)
    | (.ok _, t0) =>
      match EnsureFolder srv destFolder with
      | (.error e, t1) => (.error e, t0 ++ t1 ++ [.logoutOp])
      | (.ok _, t1) =>
        let bs : Nat := if batchSize ≤ 0 then 100 else batchSize.toNat
        match runBatches srv sourceFolder destFolder (chunkBatches bs messages) with
        | (.error e, t2) => (.error ("error moving messages: " ++ e),
            t0 ++ t1 ++ t2 ++ [.logoutOp])
        | (.ok _, t2) =>
          match connectToMailbox srv sourceFolder false with
          | (.error e, t3) => (.error ("failed to connect for verification: " ++ e),
              t0 ++ t1 ++ t2 ++ t3 ++ [.logoutOp])
          | (.ok _, t3) =>
            let v := verifyLoop srv messages
            (v.1, t0 ++ t1 ++ t2 ++ t3 ++ v.2 ++ [.logoutOp, .logoutOp])

/-- `purgeMessages` (delete.go): single session, UID STORE +Deleted over
the messages' UIDs, then EXPUNGE. -/
def purgeMessages (srv : Server) (folder : String) (messages : List Msg) :
    Except String Unit × List Op :=
  match connectToMailbox srv folder false with
  | (.error e, t) => (.error ("failed to connect to mailbox: " ++ e), t)
  | (.ok _, t) =>
    let seqSet := createSeqSet messages
    match srv.uidStoreDeleted seqSet with
    | .error e => (.error ("failed to mark messages as deleted: " ++ e),
        t ++ [.uidStoreOp seqSet, .logoutOp])
    | .ok _ =>
      match srv.expunge with
      | .error e => (.error ("failed to expunge messages: " ++ e),
          t ++ [.uidStoreOp seqSet, .expungeOp, .logoutOp])
      | .ok _ => (.ok (), t ++ [.uidStoreOp seqSet, .expungeOp, .logoutOp])

/-- `moveToTrash` (delete.go): resolve the trash folder and delegate to
`MoveMessages` with batch size 10. -/
def moveToTrash (srv : Server) (account : Account) (folder : String)
    (messages : List Msg) : Except String Unit × List Op :=
  match findTrashFolder srv with
  | (.error e, t) => (.error ("failed to find trash folder: " ++ e), t)
  | (.ok trashFolder, t) =>
    let r := MoveMessages srv account messages folder trashFolder 10
    ((match r.1 with
      | .error e => .error ("failed to move messages from " ++ folder ++ " to " ++
          trashFolder ++ ": " ++ e)
      | .ok _ => .ok ()), t ++ r.2)

/-- `DeleteMessages` (delete.go): no-op on an empty list, else purge or
move-to-trash per the account's policy. -/
def DeleteMessages (srv : Server) (account : Account) (messages : List Msg)
    (folder : String) : Except String Unit × List Op :=
  if messages.length = 0 then (.ok (), [])
  else
    let r := if account.purge then purgeMessages srv folder messages
             else moveToTrash srv account folder messages
    ((match r.1 with
      | .error e => .error ("failed to delete messages: " ++ e)
      | .ok _ => .ok ()), r.2)

/-! ## Concrete servers used as witnesses -/

/-- A server whose folder listing names "Deleted Items" before "Trash". -/
def trashListServer : Server where
  login := .ok ()
  selectFolder := fun _ => .ok ()
  listPattern := fun _ => .ok ["INBOX", "Deleted Items", "Trash"]
  createFolder := fun _ => .ok ()
  uidMove := fun _ _ => .ok ()
  uidCopy := fun _ _ => .ok ()
  uidStoreDeleted := fun _ => .ok ()
  expunge := .ok ()
  uidFetchFound := fun _ => .ok false

/-- A server on which every folder exists, every operation succeeds, and
UID 7 is still fetchable from the selected folder. -/
def stickyServer : Server where
  login := .ok ()
  selectFolder := fun _ => .ok ()
  listPattern := fun p => .ok [p]
  createFolder := fun _ => .ok ()
  uidMove := fun _ _ => .ok ()
  uidCopy := fun _ _ => .ok ()
  uidStoreDeleted := fun _ => .ok ()
  expunge := .ok ()
  uidFetchFound := fun u => .ok (u == 7)

/-- A gmail-dialect server whose UID STORE fails after a successful
UID COPY. -/
def gmailStoreFailServer : Server where
  login := .ok ()
  selectFolder := fun _ => .ok ()
  listPattern := fun p => .ok [p]
  createFolder := fun _ => .ok ()
  uidMove := fun _ _ => .ok ()
  uidCopy := fun _ _ => .ok ()
  uidStoreDeleted := fun _ => .error "store failed"
  expunge := .ok ()
  uidFetchFound := fun _ => .ok false

def gmailAccount : Account := { server := "imap.gmail.com" }

/-! ## C7 helpers: the prefix walk of EnsureFolder -/

/-- The successive '/'-joined path prefixes visited by the
EnsureFolder loop, parent first. -/
def prefixPaths : List String → String → Bool → List String
  | [], _, _ => []
  | seg :: rest, current, isFirst =>
    let path := if isFirst then current ++ seg else current ++ "/" ++ seg
    path :: prefixPaths rest path false

/-- The commands the walk issues under a listing view that never
errors: list each prefix, and create it right there when missing. -/
def walkOps (view : String → List String) : List String → List Op
  | [] => []
  | p :: rest =>
    .listOp "" p :: ((if (view p).contains p then [] else [.createOp p]) ++ walkOps view rest)

/-- The folder names created in a trace, in order. -/
def createdPaths (t : List Op) : List String :=
  t.filterMap (fun op => match op with | .createOp n => some n | _ => none)

/-- A server that lists no folders at all and accepts every create. -/
def emptyBoxServer : Server where
  login := .ok ()
  selectFolder := fun _ => .ok ()
  listPattern := fun _ => .ok []
  createFolder := fun _ => .ok ()
  uidMove := fun _ _ => .ok ()
  uidCopy := fun _ _ => .ok ()
  uidStoreDeleted := fun _ => .ok ()
  expunge := .ok ()
  uidFetchFound := fun _ => .ok false

def purgeAccount : Account := { purge := true }

/-! ## Sender tallying (imap/senders.go, unnamed part 002)

`CountMessagesBySender` is embedded from the post-fetch point on: the
fetched message list is its input (`FetchMessages` and its error path
are outside this embedding).  The 4-worker tally pool serialises all
map updates through one mutex; the tally is embedded as an association
list in first-appearance order, one fold step per message in input
order.  `sort.Slice` (used for result sets of ≤ 1000 entries) sorts by
the comparator `count_i > count_j` with unspecified order among equal
counts; it is embedded as an insertion sort by that comparator.
`parallelSort` is embedded exactly as written (its merge is
deterministic). -/
structure GoAddress where
  personalName : String := ""
  atDomainList : String := ""
  mailboxName : String := ""
  hostName : String := ""
deriving DecidableEq, Repr

/-- `FormatAddress` (unnamed part 002): "mailbox@host", where the parts
stay empty unless both MailboxName and HostName are non-empty. -/
def FormatAddress (a : GoAddress) : String :=
  let cond := a.mailboxName != "" && a.hostName != ""
  (if cond then a.mailboxName else "") ++ "@" ++ (if cond then a.hostName else "")

structure SenderMsg where
  uid : Nat := 0
  fromAddrs : List GoAddress := []
deriving DecidableEq, Repr

/-- `senderCounts[sender]++`. -/
def bumpSender : List (String × Nat) → String → List (String × Nat)
  | [], s => [(s, 1)]
  | (k, n) :: rest, s =>
    if k = s then (k, n + 1) :: rest else (k, n) :: bumpSender rest s

/-- One worker step: skip a message with an empty envelope From list,
else tally the formatted first From address (when non-empty). -/
def tallyStep (acc : List (String × Nat)) (msg : SenderMsg) : List (String × Nat) :=
  match msg.fromAddrs with
  | [] => acc
  | a :: _ =>
    let sender := FormatAddress a
    if sender = "" then acc else bumpSender acc sender

/-- The drained tally of the worker pool. -/
def tallySenders (messages : List SenderMsg) : List (String × Nat) :=
  messages.foldl tallyStep []

def lookupTally : List (String × Nat) → String → Nat
  | [], _ => 0
  | (k, n) :: rest, s => if k = s then n else lookupTally rest s

structure SenderCount where
  sender : String
  messageCount : Nat
deriving DecidableEq, Repr

/-- The `sort.Slice`/`parallelSort` comparison: descending message
count. -/
def scDescends (a b : SenderCount) : Prop := b.messageCount ≤ a.messageCount

instance : DecidableRel scDescends := fun _ _ => Nat.decLe _ _

instance : IsTotal SenderCount scDescends :=
  ⟨fun a b => Nat.le_total b.messageCount a.messageCount⟩

instance : IsTrans SenderCount scDescends :=
  ⟨fun _ _ _ h1 h2 => Nat.le_trans h2 h1⟩

/-- The merge loop of `parallelSort`: take from the left half exactly
when its head has the strictly larger count. -/
def parallelSortMerge : List SenderCount → List SenderCount → List SenderCount
  | [], ys => ys
  | x :: xs, [] => x :: xs
  | x :: xs, y :: ys =>
      if y.messageCount < x.messageCount then x :: parallelSortMerge xs (y :: ys)
      else y :: parallelSortMerge (x :: xs) ys

/-- `parallelSort` (imap/senders.go): split at the midpoint, sort both
halves (concurrently in Go; the result is scheduling-independent), and
merge. -/
def parallelSort (l : List SenderCount) : List SenderCount :=
  if _ : l.length ≤ 1 then l
  else parallelSortMerge (parallelSort (l.take (l.length / 2)))
         (parallelSort (l.drop (l.length / 2)))
termination_by l.length
decreasing_by
  · simp only [List.length_take]
    omega
  · simp only [List.length_drop]
    omega

/-- Threshold filter: keep the senders whose tally reached the
threshold. -/
def retainedSenders (tally : List (String × Nat)) (threshold : Int) : List SenderCount :=
  (tally.filter (fun p => threshold ≤ (p.2 : Int))).map (fun p => ⟨p.1, p.2⟩)

/-- The size-dependent sort choice of `CountMessagesBySender`. -/
def sortSenderCounts (l : List SenderCount) : List SenderCount :=
  if 1000 < l.length then parallelSort l
  else List.insertionSort scDescends l

/-- `CountMessagesBySender` (imap/senders.go), from the fetched message
list on: tally, filter by threshold, sort descending, and emit the
header row plus one row per retained sender. -/
def CountMessagesBySender (messages : List SenderMsg) (threshold : Int) :
    List (List String) :=
  let senderCountList := retainedSenders (tallySenders messages) threshold
  let sorted := sortSenderCounts senderCountList
  ["Sender", "Number of Messages"] :: sorted.map (fun sc => [sc.sender, toString sc.messageCount])

/-- The data rows' counts, in row order. -/
def outputCounts (messages : List SenderMsg) (threshold : Int) : List Nat :=
  (sortSenderCounts (retainedSenders (tallySenders messages) threshold)).map
    SenderCount.messageCount

def addrAX : GoAddress := { mailboxName := "a", hostName := "x.com" }

def addrBX : GoAddress := { mailboxName := "b", hostName := "x.com" }

/-- Two senders with one message each: equal tallies. -/
def equalCountMsgs : List SenderMsg :=
  [{ uid := 1, fromAddrs := [addrAX] }, { uid := 2, fromAddrs := [addrBX] }]

/-- Three messages from a@x.com and one from b@x.com. -/
def threeToOneMsgs : List SenderMsg :=
  [{ uid := 1, fromAddrs := [addrAX] }, { uid := 2, fromAddrs := [addrAX] },
   { uid := 3, fromAddrs := [addrAX] }, { uid := 4, fromAddrs := [addrBX] }]

/-- The Bool predicate "this message is counted under sender key s":
its envelope From list is non-empty and its first address formats to
s. -/
def senderKeyIs (s : String) (m : SenderMsg) : Bool :=
  match m.fromAddrs with
  | [] => false
  | a :: _ => FormatAddress a == s

def emptyFromMsg : SenderMsg := { uid := 9, fromAddrs := [] }

lemma headerCriteria_leaf (opts : SearchOptions) :
    ∀ c ∈ buildHeaderCriteria opts, c.orPair = none := by
  obtain ⟨t, f, sb, sd, ed, se, us⟩ := opts
  rcases t with _ | t <;> rcases f with _ | f <;> rcases sb with _ | sb <;>
    simp [buildHeaderCriteria, SearchCriteria.orPair]

lemma dateCriteria_leaf (opts : SearchOptions) :
    ∀ c ∈ buildDateRangeCriteria opts, c.orPair = none := by
  obtain ⟨t, f, sb, sd, ed, se, us⟩ := opts
  rcases sd with _ | sd <;> rcases ed with _ | ed <;>
    simp [buildDateRangeCriteria, SearchCriteria.orPair]

lemma flagCriteria_leaf (opts : SearchOptions) :
    ∀ c ∈ buildFlagCriteria opts, c.orPair = none := by
  intro c hc
  unfold buildFlagCriteria at hc
  split_ifs at hc <;> simp at hc <;> rcases hc with rfl | rfl <;> rfl

lemma individualCriteria_leaf (opts : SearchOptions) :
    ∀ c ∈ buildIndividualCriteria opts, c.orPair = none := by
  intro c hc
  simp only [buildIndividualCriteria, List.mem_append] at hc
  rcases hc with (h | h) | h
  · exact headerCriteria_leaf opts c h
  · exact dateCriteria_leaf opts c h
  · exact flagCriteria_leaf opts c h

lemma chain_shape (l : List SearchCriteria) (hlen : 2 ≤ l.length)
    (hleaf : ∀ c ∈ l, c.orPair = none) :
    rightNested (buildORChain l) = true ∧
    orDepth (buildORChain l) = l.length - 1 ∧
    orLeaves (buildORChain l) = l := by
  induction l with
  | nil => simp at hlen
  | cons a rest ih =>
    match rest with
    | [] => simp at hlen
    | [b] =>
      have ha := hleaf a (by simp)
      have hb := hleaf b (by simp)
      rcases a with ⟨fa, oa⟩
      rcases b with ⟨fb, ob⟩
      simp [SearchCriteria.orPair] at ha hb
      subst ha hb
      simp [buildORChain, rightNested, orDepth, orLeaves, SearchCriteria.orPair]
    | b :: c :: rest' =>
      have hlen' : 2 ≤ (b :: c :: rest').length := by simp
      have hleaf' : ∀ x ∈ b :: c :: rest', x.orPair = none := by
        intro x hx; exact hleaf x (List.mem_cons_of_mem a hx)
      obtain ⟨h1, h2, h3⟩ := ih hlen' hleaf'
      have ha := hleaf a (by simp)
      have hchain : buildORChain (a :: b :: c :: rest') =
          .node {} (some (a, buildORChain (b :: c :: rest'))) := by
        simp [buildORChain]
      rcases a with ⟨fa, oa⟩
      simp [SearchCriteria.orPair] at ha
      subst ha
      refine ⟨?_, ?_, ?_⟩
      · simp [hchain, rightNested, SearchCriteria.orPair, h1]
      · simp [hchain, orDepth, h2]
        omega
      · simp [hchain, orLeaves, h3]

lemma combineCriteriaWithOR_of_two_le (l : List SearchCriteria) (h : 2 ≤ l.length) :
    combineCriteriaWithOR l = buildORChain l := by
  match l with
  | [] => simp at h
  | [c] => simp at h
  | a :: b :: rest => rfl

lemma addFlagCriteria_since (f : SCFields) (opts : SearchOptions) :
    (addFlagCriteria f opts).since = f.since := by
  simp only [addFlagCriteria]
  split_ifs <;> rfl

lemma addFlagCriteria_sentSince (f : SCFields) (opts : SearchOptions) :
    (addFlagCriteria f opts).sentSince = f.sentSince := by
  simp only [addFlagCriteria]
  split_ifs <;> rfl

lemma addFlagCriteria_before (f : SCFields) (opts : SearchOptions) :
    (addFlagCriteria f opts).before = f.before := by
  simp only [addFlagCriteria]
  split_ifs <;> rfl

lemma addFlagCriteria_sentBefore (f : SCFields) (opts : SearchOptions) :
    (addFlagCriteria f opts).sentBefore = f.sentBefore := by
  simp only [addFlagCriteria]
  split_ifs <;> rfl

/-- C4: for a SearchOptions with exactly one present field,
BuildORSearchCriteria and BuildSearchCriteria return the identical
single-leaf criteria (no OR wrapper), and with zero present fields
BuildORSearchCriteria returns the empty match-everything criteria. -/
theorem orCriteria_singleField_eq_andCriteria (opts : SearchOptions) :
    (presentFieldCount opts = 1 →
      BuildORSearchCriteria opts = BuildSearchCriteria opts ∧
      (BuildORSearchCriteria opts).orPair = none) ∧
    (presentFieldCount opts = 0 → BuildORSearchCriteria opts = emptyCriteria) := by
  obtain ⟨t, f, sb, sd, ed, se, us⟩ := opts
  constructor
  · intro h
    rcases t with _ | t <;> rcases f with _ | f <;> rcases sb with _ | sb <;>
      rcases sd with _ | sd <;> rcases ed with _ | ed <;>
      rcases se with _ | se <;> rcases us with _ | us <;>
      simp [presentFieldCount] at h <;>
      first
        | exact ⟨rfl, rfl⟩
        | (cases se <;> exact ⟨rfl, rfl⟩)
        | (cases us <;> exact ⟨rfl, rfl⟩)
  · intro h
    rcases t with _ | t <;> rcases f with _ | f <;> rcases sb with _ | sb <;>
      rcases sd with _ | sd <;> rcases ed with _ | ed <;>
      rcases se with _ | se <;> rcases us with _ | us <;>
      simp [presentFieldCount] at h <;> rfl

theorem orCriteria_singleField_witness :
    presentFieldCount { toAddr := some "a@x.com" } = 1 ∧
    BuildORSearchCriteria { toAddr := some "a@x.com" } =
      BuildSearchCriteria { toAddr := some "a@x.com" } :=
  ⟨by decide, ((orCriteria_singleField_eq_andCriteria { toAddr := some "a@x.com" }).1 (by decide)).1⟩

/-- C5: with both StartDate and EndDate present, BuildSearchCriteria
sets Since = SentSince = startDate and Before = SentBefore = endDate
plus one day; in particular 2024-01-31 + one day = 2024-02-01, making
the end date inclusive via the next-day exclusive bound. -/
theorem andCriteria_dateRange (opts : SearchOptions) (s e : GoDate)
    (hs : opts.startDate = some s) (he : opts.endDate = some e) :
    ((BuildSearchCriteria opts).fields.since = some s ∧
     (BuildSearchCriteria opts).fields.sentSince = some s ∧
     (BuildSearchCriteria opts).fields.before = some (addOneDay e) ∧
     (BuildSearchCriteria opts).fields.sentBefore = some (addOneDay e)) ∧
    addOneDay ⟨2024, 1, 31⟩ = ⟨2024, 2, 1⟩ := by
  refine ⟨?_, by decide⟩
  simp [BuildSearchCriteria, SearchCriteria.fields,
    addFlagCriteria_since, addFlagCriteria_sentSince,
    addFlagCriteria_before, addFlagCriteria_sentBefore,
    addDateCriteria, hs, he]

theorem andCriteria_dateRange_witness :
    (({ startDate := some ⟨2024,1,1⟩, endDate := some ⟨2024,1,31⟩ } : SearchOptions).startDate = some ⟨2024,1,1⟩) ∧
    (BuildSearchCriteria { startDate := some ⟨2024,1,1⟩, endDate := some ⟨2024,1,31⟩ }).fields.before =
      some ⟨2024, 2, 1⟩ := by
  have h := andCriteria_dateRange
    { startDate := some ⟨2024,1,1⟩, endDate := some ⟨2024,1,31⟩ } ⟨2024,1,1⟩ ⟨2024,1,31⟩ rfl rfl
  refine ⟨rfl, ?_⟩
  rw [h.1.2.2.1, h.2]

/-- C6: with N ≥ 2 individual criteria (one per present option, the
two date bounds merged into one combined leaf when both are present),
BuildORSearchCriteria returns a right-nested binary OR tree of depth
N − 1 whose leaves are exactly those N criteria, in order. -/
theorem orCriteria_chain_shape (opts : SearchOptions)
    (h : 2 ≤ (buildIndividualCriteria opts).length) :
    rightNested (BuildORSearchCriteria opts) = true ∧
    orDepth (BuildORSearchCriteria opts) = (buildIndividualCriteria opts).length - 1 ∧
    orLeaves (BuildORSearchCriteria opts) = buildIndividualCriteria opts := by
  have hleaf := individualCriteria_leaf opts
  have hc := chain_shape (buildIndividualCriteria opts) h hleaf
  have he : BuildORSearchCriteria opts = buildORChain (buildIndividualCriteria opts) := by
    simp only [BuildORSearchCriteria]
    exact combineCriteriaWithOR_of_two_le _ h
  rw [he]
  exact hc

theorem orCriteria_chain_shape_witness :
    2 ≤ (buildIndividualCriteria { toAddr := some "t", fromAddr := some "f", subject := some "s" }).length ∧
    orDepth (BuildORSearchCriteria { toAddr := some "t", fromAddr := some "f", subject := some "s" }) = 2 := by
  have h := orCriteria_chain_shape
    { toAddr := some "t", fromAddr := some "f", subject := some "s" } (by decide)
  exact ⟨by decide, h.2.1⟩

lemma findFirstTrashMatch_spec (l : List String) :
    (∃ pre suf, l = pre ++ (findFirstTrashMatch l) :: suf ∧
        findFirstTrashMatch l ∈ DeletedFolderNames ∧
        ∀ f ∈ pre, f ∉ DeletedFolderNames) ∨
    ((∀ f ∈ l, f ∉ DeletedFolderNames) ∧ findFirstTrashMatch l = "Deleted Items") := by
  induction l with
  | nil => right; exact ⟨by simp, rfl⟩
  | cons f rest ih =>
    by_cases hf : f ∈ DeletedFolderNames
    · left
      have h1 : findFirstTrashMatch (f :: rest) = f := by
        simp [findFirstTrashMatch, hf]
      exact ⟨[], rest, by simp [h1], by rw [h1]; exact hf, by simp⟩
    · have heq : findFirstTrashMatch (f :: rest) = findFirstTrashMatch rest := by
        simp [findFirstTrashMatch, hf]
      rcases ih with ⟨pre, suf, hl, hmem, hpre⟩ | ⟨hnone, hval⟩
      · left
        refine ⟨f :: pre, suf, ?_, ?_, ?_⟩
        · rw [heq, List.cons_append]
          exact congrArg (f :: ·) hl
        · rw [heq]; exact hmem
        · intro g hg
          rcases List.mem_cons.mp hg with rfl | hg2
          · exact hf
          · exact hpre g hg2
      · right
        refine ⟨?_, by rw [heq, hval]⟩
        intro g hg
        rcases List.mem_cons.mp hg with rfl | hg2
        · exact hf
        · exact hnone g hg2

/-- C1 counterexample: with a server that lists "Deleted Items" before
"Trash" (both present), findTrashFolder returns "Deleted Items", not the
claimed priority winner "Trash". -/
theorem findTrashFolder_listing_order_counterexample :
    (ListFolders trashListServer).1 = .ok ["INBOX", "Deleted Items", "Trash"] ∧
    "Trash" ∈ ["INBOX", "Deleted Items", "Trash"] ∧
    "Deleted Items" ∈ ["INBOX", "Deleted Items", "Trash"] ∧
    (findTrashFolder trashListServer).1 = .ok "Deleted Items" ∧
    (findTrashFolder trashListServer).1 ≠ .ok "Trash" := by
  refine ⟨rfl, by decide, by decide, rfl, ?_⟩
  intro h
  rw [show (findTrashFolder trashListServer).1 = Except.ok "Deleted Items" from rfl] at h
  exact absurd (Except.ok.inj h) (by decide)

/-- C1 amended: when the folder listing succeeds, findTrashFolder never
errors and returns the first folder in LISTING order that bears a
well-known trash name; when no listed folder does, it returns the
hard-coded fallback "Deleted Items". -/
theorem findTrashFolder_first_listed (srv : Server) (mailboxes : List String)
    (h : (ListFolders srv).1 = .ok mailboxes) :
    ∃ r, (findTrashFolder srv).1 = .ok r ∧
      ((∃ pre suf, mailboxes = pre ++ r :: suf ∧ r ∈ DeletedFolderNames ∧
          ∀ f ∈ pre, f ∉ DeletedFolderNames) ∨
       ((∀ f ∈ mailboxes, f ∉ DeletedFolderNames) ∧ r = "Deleted Items")) := by
  refine ⟨findFirstTrashMatch mailboxes, ?_, findFirstTrashMatch_spec mailboxes⟩
  rcases hl : ListFolders srv with ⟨res, t⟩
  rw [hl] at h
  simp only at h
  subst h
  simp [findTrashFolder, hl]

theorem findTrashFolder_first_listed_witness :
    (ListFolders trashListServer).1 = .ok ["INBOX", "Deleted Items", "Trash"] ∧
    ∃ r, (findTrashFolder trashListServer).1 = .ok r ∧
      ((∃ pre suf, ["INBOX", "Deleted Items", "Trash"] = pre ++ r :: suf ∧
          r ∈ DeletedFolderNames ∧ ∀ f ∈ pre, f ∉ DeletedFolderNames) ∨
       ((∀ f ∈ ["INBOX", "Deleted Items", "Trash"], f ∉ DeletedFolderNames) ∧
          r = "Deleted Items")) :=
  ⟨rfl, findTrashFolder_first_listed trashListServer ["INBOX", "Deleted Items", "Trash"] rfl⟩

lemma connectToMailbox_ok (srv : Server) (folder : String) (ro : Bool)
    (h : (connectToMailbox srv folder ro).1 = .ok ()) :
    connectToMailbox srv folder ro = (.ok (), [.dialLoginOp, .selectOp folder ro]) := by
  rcases hl : srv.login with e | u
  · simp [connectToMailbox, getImapClient, hl] at h
  · rcases hs : srv.selectFolder folder with e | u2
    · simp [connectToMailbox, getImapClient, hl, hs] at h
    · cases u
      cases u2
      simp [connectToMailbox, getImapClient, hl, hs]

lemma verifyLoop_ok_iff (srv : Server) (l : List Msg) :
    (verifyLoop srv l).1 = .ok () ↔ ∀ m ∈ l, srv.uidFetchFound m.uid ≠ .ok true := by
  induction l with
  | nil => simp [verifyLoop]
  | cons m rest ih =>
    rcases hf : srv.uidFetchFound m.uid with e | b
    · simp [verifyLoop, hf, List.forall_mem_cons, ih]
    · cases b
      · simp [verifyLoop, hf, List.forall_mem_cons, ih]
      · simp [verifyLoop, hf, List.forall_mem_cons, ih]

lemma verifyLoop_error_of_found (srv : Server) (l : List Msg)
    (h : ∃ m ∈ l, srv.uidFetchFound m.uid = .ok true) :
    ∃ e, (verifyLoop srv l).1 = .error e := by
  have hne : (verifyLoop srv l).1 ≠ .ok () := by
    rw [Ne, verifyLoop_ok_iff]
    push_neg
    rcases h with ⟨m, hm, hf⟩
    exact ⟨m, hm, hf⟩
  rcases hr : (verifyLoop srv l).1 with e | u
  · exact ⟨e, rfl⟩
  · cases u; exact absurd hr hne

lemma verifyLoop_ops (srv : Server) (l : List Msg) :
    ∀ op ∈ (verifyLoop srv l).2, ∃ u, op = .uidFetchOp [u] := by
  induction l with
  | nil => simp [verifyLoop]
  | cons m rest ih =>
    intro op hop
    rcases hf : srv.uidFetchFound m.uid with e | b
    · simp only [verifyLoop, hf] at hop
      rcases List.mem_cons.mp hop with rfl | h2
      · exact ⟨m.uid, rfl⟩
      · exact ih op h2
    · cases b
      · simp only [verifyLoop, hf] at hop
        rcases List.mem_cons.mp hop with rfl | h2
        · exact ⟨m.uid, rfl⟩
        · exact ih op h2
      · simp only [verifyLoop, hf, List.mem_singleton] at hop
        subst hop
        exact ⟨m.uid, rfl⟩

/-- C2: when the batch phase fully succeeds, MoveMessages verifies on a
fresh session (re-connect and re-select of the source folder, then one
single-UID fetch per original message); it succeeds exactly when no
original UID is still fetched from the source, and any UID whose fetch
succeeds and still yields the message makes it return an error. -/
theorem moveMessages_verifies (srv : Server) (account : Account) (messages : List Msg)
    (sourceFolder destFolder : String) (batchSize : Int)
    (hng : (strContains account.server "gmail.com" && destFolder == "[Gmail]/Trash") = false)
    (hconn : (connectToMailbox srv sourceFolder false).1 = .ok ())
    (hens : (EnsureFolder srv destFolder).1 = .ok ())
    (hmoves : (runBatches srv sourceFolder destFolder
        (chunkBatches (if batchSize ≤ 0 then 100 else batchSize.toNat) messages)).1 = .ok ()) :
    ((MoveMessages srv account messages sourceFolder destFolder batchSize).1 = .ok () ↔
      ∀ m ∈ messages, srv.uidFetchFound m.uid ≠ .ok true) ∧
    ((∃ m ∈ messages, srv.uidFetchFound m.uid = .ok true) →
      ∃ e, (MoveMessages srv account messages sourceFolder destFolder batchSize).1 = .error e) ∧
    (∃ t, (MoveMessages srv account messages sourceFolder destFolder batchSize).2 =
      t ++ .dialLoginOp :: .selectOp sourceFolder false ::
        ((verifyLoop srv messages).2 ++ [.logoutOp, .logoutOp])) ∧
    (∀ op ∈ (verifyLoop srv messages).2, ∃ u, op = .uidFetchOp [u]) := by
  have hc := connectToMailbox_ok srv sourceFolder false hconn
  rcases hE : EnsureFolder srv destFolder with ⟨re, tE⟩
  rw [hE] at hens
  simp only at hens
  subst hens
  rcases hR : runBatches srv sourceFolder destFolder
      (chunkBatches (if batchSize ≤ 0 then 100 else batchSize.toNat) messages) with ⟨rb, tB⟩
  rw [hR] at hmoves
  simp only at hmoves
  subst hmoves
  have hM : MoveMessages srv account messages sourceFolder destFolder batchSize =
      ((verifyLoop srv messages).1,
        [Op.dialLoginOp, Op.selectOp sourceFolder false] ++ tE ++ tB ++
          [Op.dialLoginOp, Op.selectOp sourceFolder false] ++
          (verifyLoop srv messages).2 ++ [Op.logoutOp, Op.logoutOp]) := by
    unfold MoveMessages
    rw [hng]
    simp only [Bool.false_eq_true, if_false, hc, hE, hR]
  refine ⟨?_, ?_, ?_, verifyLoop_ops srv messages⟩
  · rw [hM]
    exact verifyLoop_ok_iff srv messages
  · intro hfound
    rcases verifyLoop_error_of_found srv messages hfound with ⟨e, he⟩
    exact ⟨e, by rw [hM]; exact he⟩
  · refine ⟨[Op.dialLoginOp, Op.selectOp sourceFolder false] ++ tE ++ tB, ?_⟩
    rw [hM]
    simp

theorem moveMessages_verifies_witness :
    (∃ m ∈ [(⟨1, 7⟩ : Msg)], stickyServer.uidFetchFound m.uid = .ok true) ∧
    ∃ e, (MoveMessages stickyServer {} [⟨1, 7⟩] "INBOX" "Archive" 1).1 = .error e := by
  have hfound : ∃ m ∈ [(⟨1, 7⟩ : Msg)], stickyServer.uidFetchFound m.uid = .ok true :=
    ⟨⟨1, 7⟩, by simp, rfl⟩
  exact ⟨hfound,
    (moveMessages_verifies stickyServer {} [⟨1, 7⟩] "INBOX" "Archive" 1
      rfl rfl rfl rfl).2.1 hfound⟩

/-- C3: on a gmail.com server with destination "[Gmail]/Trash",
MoveMessages delegates entirely to moveToGmailTrash, which issues
UID COPY, then UID STORE +Deleted, then EXPUNGE, in that order; a
failure at the store or expunge step returns an error and issues no
further (compensating) command. -/
theorem moveMessages_gmail_dialect (srv : Server) (account : Account)
    (messages : List Msg) (folder : String) (batchSize : Int)
    (hg : strContains account.server "gmail.com" = true)
    (hc : (connectToMailbox srv folder false).1 = .ok ()) :
    (MoveMessages srv account messages folder "[Gmail]/Trash" batchSize =
      moveToGmailTrash srv folder messages) ∧
    (srv.uidCopy (createSeqSet messages) "[Gmail]/Trash" = .ok () →
      srv.uidStoreDeleted (createSeqSet messages) = .ok () →
      srv.expunge = .ok () →
      moveToGmailTrash srv folder messages = (.ok (),
        [.dialLoginOp, .selectOp folder false,
         .uidCopyOp (createSeqSet messages) "[Gmail]/Trash",
         .uidStoreOp (createSeqSet messages), .expungeOp, .logoutOp])) ∧
    (∀ e, srv.uidCopy (createSeqSet messages) "[Gmail]/Trash" = .ok () →
      srv.uidStoreDeleted (createSeqSet messages) = .error e →
      ∃ e2, moveToGmailTrash srv folder messages = (.error e2,
        [.dialLoginOp, .selectOp folder false,
         .uidCopyOp (createSeqSet messages) "[Gmail]/Trash",
         .uidStoreOp (createSeqSet messages), .logoutOp])) ∧
    (∀ e, srv.uidCopy (createSeqSet messages) "[Gmail]/Trash" = .ok () →
      srv.uidStoreDeleted (createSeqSet messages) = .ok () →
      srv.expunge = .error e →
      ∃ e2, moveToGmailTrash srv folder messages = (.error e2,
        [.dialLoginOp, .selectOp folder false,
         .uidCopyOp (createSeqSet messages) "[Gmail]/Trash",
         .uidStoreOp (createSeqSet messages), .expungeOp, .logoutOp])) := by
  have hcc := connectToMailbox_ok srv folder false hc
  refine ⟨?_, ?_, ?_, ?_⟩
  · simp [MoveMessages, hg]
  · intro h1 h2 h3
    simp [moveToGmailTrash, hcc, h1, h2, h3]
  · intro e h1 h2
    exact ⟨"failed to flag messages as deleted: " ++ e,
      by simp [moveToGmailTrash, hcc, h1, h2]⟩
  · intro e h1 h2 h3
    exact ⟨"failed to expunge messages: " ++ e,
      by simp [moveToGmailTrash, hcc, h1, h2, h3]⟩

theorem moveMessages_gmail_dialect_witness :
    strContains gmailAccount.server "gmail.com" = true ∧
    ∃ e2, moveToGmailTrash gmailStoreFailServer "INBOX" [⟨1, 5⟩] = (.error e2,
      [.dialLoginOp, .selectOp "INBOX" false, .uidCopyOp [5] "[Gmail]/Trash",
       .uidStoreOp [5], .logoutOp]) := by
  have h := moveMessages_gmail_dialect gmailStoreFailServer gmailAccount [⟨1, 5⟩]
    "INBOX" 0 (by decide) rfl
  exact ⟨by decide, h.2.2.1 "store failed" rfl rfl⟩

lemma contains_iff_mem (l : List String) (a : String) : l.contains a = true ↔ a ∈ l := by
  simp

lemma ensureSegments_trace (srv : Server) (view : String → List String)
    (hview : ∀ p, srv.listPattern p = .ok (view p))
    (hcreate : ∀ p, srv.createFolder p = .ok ()) :
    ∀ (segs : List String) (current : String) (isFirst : Bool),
      ensureSegments srv segs current isFirst =
        (.ok (), walkOps view (prefixPaths segs current isFirst)) := by
  intro segs
  induction segs with
  | nil => intro current isFirst; rfl
  | cons seg rest ih =>
    intro current isFirst
    by_cases hmem : (if isFirst then current ++ seg else current ++ "/" ++ seg) ∈
        view (if isFirst then current ++ seg else current ++ "/" ++ seg)
    · simp [ensureSegments, walkOps, prefixPaths, hview, hcreate, hmem, ih]
    · simp [ensureSegments, walkOps, prefixPaths, hview, hcreate, hmem, ih]

lemma createdPaths_walkOps (view : String → List String) (l : List String) :
    createdPaths (walkOps view l) = l.filter (fun p => !(view p).contains p) := by
  induction l with
  | nil => rfl
  | cons p rest ih =>
    by_cases hmem : p ∈ view p
    · simp [walkOps, createdPaths, hmem, List.filter_cons] at ih ⊢
      exact ih
    · simp [walkOps, createdPaths, hmem, List.filter_cons] at ih ⊢
      exact ih

/-- C7: when the full path is absent, EnsureFolder first lists the full
path, then walks the '/'-prefixes parent-first, listing each prefix and
creating it immediately when missing, before touching any longer
prefix; the created paths are exactly the missing prefixes in
parent-first order. -/
theorem ensureFolder_parent_first (srv : Server) (view : String → List String)
    (folderName : String)
    (hlogin : srv.login = .ok ())
    (hview : ∀ p, srv.listPattern p = .ok (view p))
    (hcreate : ∀ p, srv.createFolder p = .ok ())
    (habsent : folderName ∉ view folderName) :
    (EnsureFolder srv folderName).1 = .ok () ∧
    (EnsureFolder srv folderName).2 =
      .dialLoginOp :: .listOp "" folderName ::
        (walkOps view (prefixPaths (splitSlash folderName) "" true) ++ [.logoutOp]) ∧
    createdPaths (EnsureFolder srv folderName).2 =
      (prefixPaths (splitSlash folderName) "" true).filter
        (fun p => !(view p).contains p) := by
  have hwalk := ensureSegments_trace srv view hview hcreate (splitSlash folderName) "" true
  have hE : EnsureFolder srv folderName =
      (.ok (), .dialLoginOp :: .listOp "" folderName ::
        (walkOps view (prefixPaths (splitSlash folderName) "" true) ++ [.logoutOp])) := by
    simp [EnsureFolder, getImapClient, hlogin, hview, habsent, hwalk]
  refine ⟨by rw [hE], by rw [hE], ?_⟩
  rw [hE]
  have h2 := createdPaths_walkOps view (prefixPaths (splitSlash folderName) "" true)
  simp only [createdPaths, List.filterMap_cons, List.filterMap_append] at h2 ⊢
  simp [h2]

theorem ensureFolder_parent_first_witness :
    (EnsureFolder emptyBoxServer "Parent/Child").2 =
      [.dialLoginOp, .listOp "" "Parent/Child", .listOp "" "Parent", .createOp "Parent",
       .listOp "" "Parent/Child", .createOp "Parent/Child", .logoutOp] ∧
    createdPaths (EnsureFolder emptyBoxServer "Parent/Child").2 =
      ["Parent", "Parent/Child"] := by
  have h := ensureFolder_parent_first emptyBoxServer (fun _ => []) "Parent/Child"
    rfl (fun _ => rfl) (fun _ => rfl) (by decide)
  constructor
  · rw [h.2.1]
    decide
  · rw [h.2.2]
    decide

/-- C8: DeleteMessages is a no-op on an empty message list (no session,
no command); on a non-empty list under the purge policy it opens one
session and issues exactly one UID STORE +Deleted over the messages'
UIDs followed by exactly one EXPUNGE — no folder listing and no move
command appears in the trace. -/
theorem deleteMessages_purge_trace (srv : Server) (account : Account)
    (messages : List Msg) (folder : String)
    (hne : messages ≠ [])
    (hpurge : account.purge = true)
    (hconn : (connectToMailbox srv folder false).1 = .ok ())
    (hstore : srv.uidStoreDeleted (createSeqSet messages) = .ok ()) :
    DeleteMessages srv account [] folder = (.ok (), []) ∧
    (DeleteMessages srv account messages folder).2 =
      [.dialLoginOp, .selectOp folder false, .uidStoreOp (createSeqSet messages),
       .expungeOp, .logoutOp] ∧
    (srv.expunge = .ok () → (DeleteMessages srv account messages folder).1 = .ok ()) := by
  have hcc := connectToMailbox_ok srv folder false hconn
  have hlen : messages.length ≠ 0 := by
    intro h
    exact hne (List.length_eq_zero.mp h)
  refine ⟨by simp [DeleteMessages], ?_, ?_⟩
  · rcases hx : srv.expunge with e | u
    · simp [DeleteMessages, hlen, hpurge, purgeMessages, hcc, hstore, hx]
    · cases u
      simp [DeleteMessages, hlen, hpurge, purgeMessages, hcc, hstore, hx]
  · intro hx
    simp [DeleteMessages, hlen, hpurge, purgeMessages, hcc, hstore, hx]

theorem deleteMessages_purge_trace_witness :
    ([(⟨1, 3⟩ : Msg), ⟨2, 4⟩] ≠ []) ∧
    (DeleteMessages stickyServer purgeAccount [⟨1, 3⟩, ⟨2, 4⟩] "INBOX").2 =
      [.dialLoginOp, .selectOp "INBOX" false, .uidStoreOp [3, 4], .expungeOp, .logoutOp] ∧
    (DeleteMessages stickyServer purgeAccount [⟨1, 3⟩, ⟨2, 4⟩] "INBOX").1 = .ok () := by
  have h := deleteMessages_purge_trace stickyServer purgeAccount [⟨1, 3⟩, ⟨2, 4⟩] "INBOX"
    (by simp) rfl rfl rfl
  exact ⟨by simp, h.2.1, h.2.2 rfl⟩

lemma parallelSortMerge_perm (xs ys : List SenderCount) :
    (parallelSortMerge xs ys).Perm (xs ++ ys) := by
  induction xs generalizing ys with
  | nil => simp [parallelSortMerge]
  | cons x xs ihx =>
    induction ys with
    | nil => simp [parallelSortMerge]
    | cons y ys ihy =>
      rw [parallelSortMerge]
      split_ifs with h
      · exact (ihx (y :: ys)).cons x
      · refine ((ihy).cons y).trans ?_
        exact (List.perm_middle).symm

lemma parallelSort_perm (l : List SenderCount) : (parallelSort l).Perm l := by
  induction l using parallelSort.induct with
  | case1 l h => rw [parallelSort]; simp [h]
  | case2 l h ih1 ih2 =>
    rw [parallelSort]
    simp only [h, dite_false]
    refine (parallelSortMerge_perm _ _).trans ?_
    refine (ih1.append ih2).trans ?_
    rw [List.take_append_drop]

lemma parallelSortMerge_mem (z : SenderCount) (xs ys : List SenderCount) :
    z ∈ parallelSortMerge xs ys → z ∈ xs ∨ z ∈ ys := by
  intro hz
  have := (parallelSortMerge_perm xs ys).mem_iff.mp hz
  simpa using this

lemma parallelSortMerge_sorted (xs ys : List SenderCount)
    (hx : List.Sorted scDescends xs) (hy : List.Sorted scDescends ys) :
    List.Sorted scDescends (parallelSortMerge xs ys) := by
  induction xs generalizing ys with
  | nil => simpa [parallelSortMerge]
  | cons x xs ihx =>
    induction ys with
    | nil => simpa [parallelSortMerge] using hx
    | cons y ys ihy =>
      rw [parallelSortMerge]
      have hx' := (List.sorted_cons.mp hx).2
      have hxb := (List.sorted_cons.mp hx).1
      have hy' := (List.sorted_cons.mp hy).2
      have hyb := (List.sorted_cons.mp hy).1
      split_ifs with h
      · rw [List.sorted_cons]
        refine ⟨?_, ihx (y :: ys) hx' hy⟩
        intro b hb
        rcases parallelSortMerge_mem b xs (y :: ys) hb with h1 | h1
        · exact hxb b h1
        · rcases List.mem_cons.mp h1 with rfl | h2
          · exact Nat.le_of_lt h
          · exact Nat.le_trans (hyb b h2) (Nat.le_of_lt h)
      · rw [List.sorted_cons]
        refine ⟨?_, ihy hy'⟩
        intro b hb
        rcases parallelSortMerge_mem b (x :: xs) ys hb with h1 | h1
        · rcases List.mem_cons.mp h1 with rfl | h2
          · exact Nat.le_of_not_lt h
          · exact Nat.le_trans (hxb b h2) (Nat.le_of_not_lt h)
        · exact hyb b h1

lemma parallelSort_sorted (l : List SenderCount) :
    List.Sorted scDescends (parallelSort l) := by
  induction l using parallelSort.induct with
  | case1 l h =>
    rw [parallelSort]
    simp only [h, dite_true]
    match l, h with
    | [], _ => simp
    | [x], _ => simp
  | case2 l h ih1 ih2 =>
    rw [parallelSort]
    simp only [h, dite_false]
    exact parallelSortMerge_sorted _ _ ih1 ih2

lemma sortSenderCounts_perm (l : List SenderCount) : (sortSenderCounts l).Perm l := by
  unfold sortSenderCounts
  split_ifs
  · exact parallelSort_perm l
  · exact List.perm_insertionSort scDescends l

lemma sortSenderCounts_sorted (l : List SenderCount) :
    List.Sorted scDescends (sortSenderCounts l) := by
  unfold sortSenderCounts
  split_ifs
  · exact parallelSort_sorted l
  · exact List.sorted_insertionSort scDescends l

/-- C9 counterexample: two retained senders with one message each give
two data rows with equal counts, so the rows are not in strictly
descending count order. -/
theorem countBySender_strict_desc_counterexample :
    CountMessagesBySender equalCountMsgs 1 =
      [["Sender", "Number of Messages"], ["a@x.com", "1"], ["b@x.com", "1"]] ∧
    outputCounts equalCountMsgs 1 = [1, 1] ∧
    ¬ List.Pairwise (fun a b : Nat => a > b) (outputCounts equalCountMsgs 1) := by
  refine ⟨by decide, by decide, ?_⟩
  intro h
  rw [show outputCounts equalCountMsgs 1 = [1, 1] by decide] at h
  exact absurd ((List.pairwise_cons.mp h).1 1 (by simp)) (by omega)

/-- C9 amended: the output is the header row followed by exactly one
row per sender whose tally reached the threshold, in descending
(non-increasing, ties unordered) count order, under both the in-process
sort (≤ 1000 entries) and the parallel merge sort (> 1000 entries); in
particular 3 messages from a@x.com and 1 from b@x.com at threshold 2
give exactly the row ("a@x.com", 3). -/
theorem countBySender_table (messages : List SenderMsg) (threshold : Int) :
    CountMessagesBySender messages threshold =
      ["Sender", "Number of Messages"] ::
        (sortSenderCounts (retainedSenders (tallySenders messages) threshold)).map
          (fun sc => [sc.sender, toString sc.messageCount]) ∧
    (sortSenderCounts (retainedSenders (tallySenders messages) threshold)).Perm
      (retainedSenders (tallySenders messages) threshold) ∧
    List.Sorted scDescends
      (sortSenderCounts (retainedSenders (tallySenders messages) threshold)) ∧
    CountMessagesBySender threeToOneMsgs 2 =
      [["Sender", "Number of Messages"], ["a@x.com", "3"]] := by
  exact ⟨rfl, sortSenderCounts_perm _, sortSenderCounts_sorted _, by decide⟩

lemma formatAddress_ne_empty (a : GoAddress) : FormatAddress a ≠ "" := by
  intro h
  have hlen := congrArg String.length h
  simp only [FormatAddress] at hlen
  rw [String.length_append, String.length_append] at hlen
  have h1 : ("@" : String).length = 1 := rfl
  have h0 : ("" : String).length = 0 := rfl
  omega

lemma lookupTally_bump (acc : List (String × Nat)) (k s : String) :
    lookupTally (bumpSender acc k) s =
      lookupTally acc s + (if k = s then 1 else 0) := by
  induction acc with
  | nil => by_cases hks : k = s <;> simp [bumpSender, lookupTally, hks]
  | cons p rest ih =>
    rcases p with ⟨pk, pn⟩
    by_cases hpk : pk = k
    · subst hpk
      by_cases hks : pk = s <;> simp [bumpSender, lookupTally, hks]
    · by_cases hps : pk = s
      · have hks : ¬ k = s := by rw [← hps]; exact fun h => hpk h.symm
        have hsk : ¬ s = k := fun h => hks h.symm
        simp [bumpSender, lookupTally, hpk, hps, hks, hsk]
      · simp [bumpSender, lookupTally, hpk, hps, ih]

lemma lookupTally_foldl (msgs : List SenderMsg) (acc : List (String × Nat)) (s : String) :
    lookupTally (List.foldl tallyStep acc msgs) s =
      lookupTally acc s + msgs.countP (senderKeyIs s) := by
  induction msgs generalizing acc with
  | nil => simp [lookupTally]
  | cons m rest ih =>
    rw [List.foldl_cons, ih, List.countP_cons]
    rcases hf : m.fromAddrs with _ | ⟨a, as⟩
    · simp [tallyStep, hf, senderKeyIs]
    · have hne := formatAddress_ne_empty a
      by_cases hs : FormatAddress a = s
      · subst hs
        simp [tallyStep, hf, senderKeyIs, hne, lookupTally_bump]
        omega
      · simp [tallyStep, hf, senderKeyIs, hne, lookupTally_bump, hs]

lemma bumpSender_keys (acc : List (String × Nat)) (k : String) :
    ∀ p ∈ bumpSender acc k, p.1 ∈ acc.map Prod.fst ∨ p.1 = k := by
  induction acc with
  | nil =>
    intro p hp
    simp only [bumpSender, List.mem_singleton] at hp
    subst hp
    exact Or.inr rfl
  | cons q rest ih =>
    rcases q with ⟨qk, qn⟩
    intro p hp
    by_cases hq : qk = k
    · subst hq
      simp [bumpSender] at hp
      rcases hp with rfl | hp
      · exact Or.inl (by simp)
      · exact Or.inl (List.mem_map_of_mem Prod.fst (List.mem_cons_of_mem _ hp))
    · simp [bumpSender, hq] at hp
      rcases hp with rfl | hp
      · exact Or.inl (by simp)
      · rcases ih p hp with h1 | h1
        · refine Or.inl ?_
          rw [List.map_cons]
          exact List.mem_cons_of_mem _ h1
        · exact Or.inr h1

lemma tally_keys_from_messages (msgs : List SenderMsg) (acc : List (String × Nat)) :
    ∀ p ∈ List.foldl tallyStep acc msgs,
      p.1 ∈ acc.map Prod.fst ∨
      ∃ m ∈ msgs, ∃ a rest, m.fromAddrs = a :: rest ∧ FormatAddress a = p.1 := by
  induction msgs generalizing acc with
  | nil =>
    intro p hp
    rw [List.foldl_nil] at hp
    exact Or.inl (List.mem_map_of_mem Prod.fst hp)
  | cons m rest ih =>
    intro p hp
    rw [List.foldl_cons] at hp
    rcases ih (tallyStep acc m) p hp with h1 | h1
    · rcases hf : m.fromAddrs with _ | ⟨a, as⟩
      · left
        simpa [tallyStep, hf] using h1
      · have hne := formatAddress_ne_empty a
        have hstep : tallyStep acc m = bumpSender acc (FormatAddress a) := by
          simp [tallyStep, hf, hne]
        rw [hstep] at h1
        rcases List.mem_map.mp h1 with ⟨q, hq, hqp⟩
        rcases bumpSender_keys acc (FormatAddress a) q hq with h2 | h2
        · left
          rw [← hqp]
          exact h2
        · right
          exact ⟨m, by simp, a, as, hf, by rw [← h2, hqp]⟩
    · rcases h1 with ⟨m2, hm2, a, rest2, hfa, hfmt⟩
      right
      exact ⟨m2, by simp [hm2], a, rest2, hfa, hfmt⟩

/-- C10: a message with an empty envelope From list is silently skipped
(the tally is unchanged), every other message adds exactly 1 to the
tally under the "mailbox@host" formatting of its first From address,
and every tally key (hence every potential output row) stems from the
first From address of some counted message. -/
theorem countBySender_skips_empty_from (messages : List SenderMsg) (s : String) :
    lookupTally (tallySenders messages) s = messages.countP (senderKeyIs s) ∧
    (∀ m : SenderMsg, m.fromAddrs = [] → ∀ acc, tallyStep acc m = acc) ∧
    (∀ p ∈ tallySenders messages, ∃ m ∈ messages, ∃ a rest,
        m.fromAddrs = a :: rest ∧ FormatAddress a = p.1) := by
  refine ⟨?_, ?_, ?_⟩
  · have h := lookupTally_foldl messages [] s
    simpa [tallySenders, lookupTally] using h
  · intro m hm acc
    simp [tallyStep, hm]
  · intro p hp
    have h := tally_keys_from_messages messages [] p hp
    simpa using h

theorem countBySender_skips_empty_from_witness :
    emptyFromMsg.fromAddrs = [] ∧
    lookupTally (tallySenders [emptyFromMsg, ⟨1, [addrAX]⟩]) "a@x.com" =
      List.countP (senderKeyIs "a@x.com") [emptyFromMsg, ⟨1, [addrAX]⟩] ∧
    tallyStep [] emptyFromMsg = [] ∧
    lookupTally (tallySenders [emptyFromMsg, ⟨1, [addrAX]⟩]) "a@x.com" = 1 := by
  have h := countBySender_skips_empty_from [emptyFromMsg, ⟨1, [addrAX]⟩] "a@x.com"
  exact ⟨rfl, h.1, h.2.1 emptyFromMsg rfl [], by decide⟩
